import Mathlib

/-!
Verification of the graphql-trait-resolver repository: a shallow embedding of
its configuration model, schema-directive extraction, resolver registry and
static N+1 detector, with theorems checking the natural-language specification.

The repository is a Rust workspace of two sibling crates (`graphql-resolver`
and `graphql-trait-resolver`) that share one design; each definition below
names the source file and function it embeds.  Machine maps and sets
(`FxHashMap`, `FxHashSet`) are embedded as association lists / lists of keys
with first-match lookup, which matches every observation the embedded code
makes of them (get / contains_key / insert-overwrite / remove).
-/

namespace GraphQLTraitResolver

/-- First-match lookup in an association list; embeds `FxHashMap::get`. -/
def alistLookup {α : Type} : List (String × α) → String → Option α
  | [], _ => none
  | (k, v) :: rest, key => if k == key then some v else alistLookup rest key

/-- Insert-with-overwrite; embeds `FxHashMap::insert` (last write wins). -/
def alistInsert {α : Type} (l : List (String × α)) (k : String) (v : α) :
    List (String × α) :=
  (k, v) :: l.filter (fun kv => !(kv.1 == k))

/-- Character-list matching for Rust `str::strip_prefix`: returns the suffix
when the second list starts with the first. -/
def dropPreChars : List Char → List Char → Option (List Char)
  | [], rest => some rest
  | _ :: _, [] => none
  | p :: ps, c :: cs => if c = p then dropPreChars ps cs else none

/-- Rust `str::strip_prefix` on `String`s, via the underlying char lists. -/
def stripPat (pat s : String) : Option String :=
  (dropPreChars pat.data s.data).map (fun cs => ⟨cs⟩)

/-- Rust `str::starts_with` expressed through `stripPat`. -/
def startsWithPat (pat s : String) : Bool :=
  (stripPat pat s).isSome

/-! ## JSON values (`serde_json::Value`)

The `Number` case is embedded as an integer: the repository only ever builds
numbers from directive-argument literals via `as_i64`/`as_u64`, whose integral
fragment this captures; the `from_f64` floating-point fallback is outside the
fragment modelled here and no claim depends on it. -/

inductive Json where
  | null : Json
  | bool (b : Bool) : Json
  | num (n : Int) : Json
  | str (s : String) : Json
  | arr (elems : List Json) : Json
  | obj (entries : List (String × Json)) : Json

/-! ## Directive model
`async_graphql_value::ConstValue` and `ConstDirective`, as observed by the
code under `src/*/src/directive/`. -/

inductive ConstValue where
  | null : ConstValue
  | boolean (b : Bool) : ConstValue
  | number (n : Int) : ConstValue
  | string (s : String) : ConstValue
  | enumv (e : String) : ConstValue
  | list (elems : List ConstValue) : ConstValue
  | object (entries : List (String × ConstValue)) : ConstValue
  | binary (bytes : List Int) : ConstValue

/-- Embeds `const_value_to_json` (identical in
`graphql-resolver/src/config/parser.rs` and
`graphql-trait-resolver/src/directive/call_directive.rs`). -/
def const_value_to_json : ConstValue → Json
  | .null => .null
  | .boolean b => .bool b
  | .number n => .num n
  | .string s => .str s
  | .enumv e => .str e
  | .list elems => .arr (elems.attach.map (fun v => const_value_to_json v.1))
  | .object entries =>
      .obj (entries.attach.map (fun kv => (kv.1.1, const_value_to_json kv.1.2)))
  | .binary bytes => .arr (bytes.map (fun b => .num b))
decreasing_by
  · have h := v.2
    have : sizeOf v.1 < sizeOf elems := List.sizeOf_lt_of_mem h
    simp only [ConstValue.list.sizeOf_spec]
    omega
  · have h := kv.2
    have h1 : sizeOf kv.1 < sizeOf entries := List.sizeOf_lt_of_mem h
    have h2 : sizeOf kv.1.2 < sizeOf kv.1 := by
      obtain ⟨a, b⟩ := kv.1
      simp only [Prod.mk.sizeOf_spec]
      omega
    simp only [ConstValue.object.sizeOf_spec]
    omega

/-- A schema directive occurrence
(`async_graphql_parser::types::ConstDirective`): a name and named arguments. -/
structure ConstDirective where
  name : String
  arguments : List (String × ConstValue)

/-- Embeds `find_directive` in `graphql-resolver/src/directive/mod.rs`. -/
def find_directive (directives : List ConstDirective) (name : String) :
    Option ConstDirective :=
  directives.find? (fun d => d.name == name)

/-- Embeds `get_directive_argument` in `graphql-resolver/src/directive/mod.rs`. -/
def get_directive_argument (directive : ConstDirective) (name : String) :
    Option ConstValue :=
  (directive.arguments.find? (fun a => a.1 == name)).map (fun a => a.2)

/-- Embeds `get_string_argument` in `graphql-resolver/src/directive/mod.rs`. -/
def get_string_argument (directive : ConstDirective) (name : String) :
    Option String :=
  match get_directive_argument directive name with
  | some (.string s) => some s
  | _ => none

/-! ## Configuration model (`graphql-resolver/src/config/schema.rs`) -/

/-- Embeds `FieldType`: recursive field-type shape. -/
inductive FieldType where
  | Named (name : String) : FieldType
  | List (inner : FieldType) : FieldType
  | NonNull (inner : FieldType) : FieldType
deriving DecidableEq

/-- Embeds `FieldType::inner_type_name`. -/
def FieldType.inner_type_name : FieldType → Option String
  | .Named name => some name
  | .List inner => inner.inner_type_name
  | .NonNull inner => inner.inner_type_name

/-- Embeds `FieldType::is_list`. -/
def FieldType.is_list : FieldType → Bool
  | .List _ => true
  | .NonNull inner => inner.is_list
  | .Named _ => false

/-- Embeds `ArgumentMapping` (`graphql-resolver/src/config/schema.rs`). -/
inductive ArgumentMapping where
  | ParentField (name : String) : ArgumentMapping
  | Literal (value : Json) : ArgumentMapping
  | Argument (name : String) : ArgumentMapping

/-- Embeds `ArgumentConfig` (`graphql-resolver/src/config/schema.rs`). -/
structure ArgumentConfig where
  name : String
  arg_type : FieldType
  default_value : Option Json

/-- Embeds `ResolverConfig` (`graphql-resolver/src/config/schema.rs`). -/
inductive ResolverConfig where
  | Trait (name : String) (batch_key : Option String) : ResolverConfig
  | Call (trait_name : String) (args : List (String × ArgumentMapping)) :
      ResolverConfig

/-- Embeds `ResolverConfig::is_batched`. -/
def ResolverConfig.is_batched : ResolverConfig → Bool
  | .Trait _ batch_key => batch_key.isSome
  | .Call _ _ => false

/-- Embeds `ResolverConfig::resolver_name`. -/
def ResolverConfig.resolver_name : ResolverConfig → String
  | .Trait name _ => name
  | .Call trait_name _ => trait_name

/-- Embeds `FieldConfig` (`graphql-resolver/src/config/schema.rs`). -/
structure FieldConfig where
  name : String
  field_type : FieldType
  arguments : List ArgumentConfig
  resolver : Option ResolverConfig

/-- Embeds `TypeConfig` (`graphql-resolver/src/config/schema.rs`). -/
structure TypeConfig where
  name : String
  fields : List FieldConfig

/-- Embeds `GraphQLConfig` (`graphql-resolver/src/config/schema.rs`); the `types`
hash map is embedded as an association list with first-match lookup. -/
structure GraphQLConfig where
  types : List (String × TypeConfig) := []
  query_type : Option String := none
  mutation_type : Option String := none

/-- Embeds `self.config.types.get(name)` as used by the detector and parser. -/
def GraphQLConfig.lookupType (cfg : GraphQLConfig) (name : String) :
    Option TypeConfig :=
  alistLookup cfg.types name

/-! ## Resolver registry (`graphql-trait-resolver/src/registry/storage.rs`)

`Arc<dyn Resolver>` / `Arc<dyn ErasedBatchResolver>` handles are embedded by
the observations the core makes of them: their self-reported `name()` (and,
for batch resolvers, `batch_key_field()`). -/

/-- The observable surface of a stored `dyn Resolver`. -/
structure ResolverHandle where
  name : String
deriving DecidableEq

/-- The observable surface of a stored `dyn ErasedBatchResolver`. -/
structure BatchResolverHandle where
  name : String
  batch_key_field : String
deriving DecidableEq

/-- Embeds `ResolverError` (`graphql-resolver/src/error.rs`); payloads of the
serde-backed variant are embedded as their display text. -/
inductive ResolverError where
  | NotFound (name : String) : ResolverError
  | Argument (msg : String) : ResolverError
  | Execution (msg : String) : ResolverError
  | Serialization (msg : String) : ResolverError
deriving DecidableEq

/-- Embeds `TraitRegistry` (`graphql-trait-resolver/src/registry/storage.rs`):
two independent name-keyed namespaces. -/
structure TraitRegistry where
  resolvers : List (String × ResolverHandle) := []
  batch_resolvers : List (String × BatchResolverHandle) := []

/-- Embeds `TraitRegistry::register_resolver`: insert by self-reported name,
last write wins. -/
def TraitRegistry.register_resolver (reg : TraitRegistry)
    (r : ResolverHandle) : TraitRegistry :=
  { reg with resolvers := alistInsert reg.resolvers r.name r }

/-- Embeds `TraitRegistry::register_batch_resolver`. -/
def TraitRegistry.register_batch_resolver (reg : TraitRegistry)
    (r : BatchResolverHandle) : TraitRegistry :=
  { reg with batch_resolvers := alistInsert reg.batch_resolvers r.name r }

/-- Embeds `TraitRegistry::get_resolver`. -/
def TraitRegistry.get_resolver (reg : TraitRegistry) (name : String) :
    Except ResolverError ResolverHandle :=
  match alistLookup reg.resolvers name with
  | some r => .ok r
  | none => .error (.NotFound name)

/-- Embeds `TraitRegistry::get_batch_resolver`. -/
def TraitRegistry.get_batch_resolver (reg : TraitRegistry) (name : String) :
    Except ResolverError BatchResolverHandle :=
  match alistLookup reg.batch_resolvers name with
  | some r => .ok r
  | none => .error (.NotFound name)

/-- Embeds `TraitRegistry::has_resolver`. -/
def TraitRegistry.has_resolver (reg : TraitRegistry) (name : String) : Bool :=
  (alistLookup reg.resolvers name).isSome

/-- Embeds `TraitRegistry::has_batch_resolver`. -/
def TraitRegistry.has_batch_resolver (reg : TraitRegistry) (name : String) :
    Bool :=
  (alistLookup reg.batch_resolvers name).isSome

/-! ## N+1 detector (`graphql-resolver/src/n1/detector.rs`)

The detector's `errors: Vec<N1Error>` accumulator is embedded by returning
the produced errors from each call; the `visited: FxHashSet<String>` cycle
guard is embedded as a duplicate-free list threaded through the traversal
(insert = cons, guarded by the contains check; remove = `List.erase`).
The Rust recursion is embedded with explicit fuel; `traverse_terminates`
below proves that `types.length + 1` fuel always suffices, so the
fuel-exhausted branch used in `detect` is unreachable. -/

/-- Embeds `N1Error` (`graphql-trait-resolver/src/n1/error.rs`). -/
structure N1Error where
  path : List String
  field_name : String
  parent_type : String
  message : String
deriving DecidableEq

/-- Embeds `N1Detector::is_in_list_context`, inner loop: walk the given path
segments from `current` (starting at the root type), looking up each
segment's field on the owning type; true as soon as an ancestor field is
list-shaped, false when a lookup fails or the segments are exhausted. -/
def listCtxWalk (cfg : GraphQLConfig) : List String → String → Bool
  | [], _ => false
  | seg :: rest, current =>
    match cfg.lookupType current with
    | none => false
    | some tc =>
      match tc.fields.find? (fun f => f.name == seg) with
      | none => false
      | some fc =>
        if fc.field_type.is_list then true
        else
          match fc.field_type.inner_type_name with
          | some inner =>
            if (cfg.lookupType inner).isSome then listCtxWalk cfg rest inner
            else listCtxWalk cfg rest current
          | none => listCtxWalk cfg rest current

/-- Embeds `N1Detector::is_in_list_context`: examines the path segments strictly
between the root (index 0) and the current field (last index) — the loop
`enumerate().skip(1)` with `break` at `len - 1` visits exactly
`(path.dropLast).drop 1`. -/
def is_in_list_context (cfg : GraphQLConfig) (path : List String) : Bool :=
  if path.length < 2 then false
  else listCtxWalk cfg ((path.dropLast).drop 1) (cfg.query_type.getD "Query")

/-- Embeds `N1Detector::check_field`: the (zero or one) violations recorded for one
field at one path. -/
def check_field (cfg : GraphQLConfig) (reg : TraitRegistry)
    (parent_type : String) (field : FieldConfig) (path : List String) :
    List N1Error :=
  match field.resolver with
  | none => []
  | some resolver =>
    let in_list_context := is_in_list_context cfg path
    let is_batched := resolver.is_batched ||
      reg.has_batch_resolver resolver.resolver_name
    if in_list_context && !is_batched then
      [{ path := path
         field_name := field.name
         parent_type := parent_type
         message := "Field \x27" ++ field.name ++ "\x27 on type \x27" ++
           parent_type ++ "\x27 has a resolver in list context without " ++
           "batching. Add @batchKey directive or use a BatchResolver." }]
    else []

/-- The field loop of `N1Detector::traverse`: checks each field, then
recurses (through `recurse`, instantiated with the fuelled traversal) into
the field's inner named type when that type exists in the configuration.
Returns the visited set as left after the loop together with the errors
pushed, in push order; `none` propagates fuel exhaustion. -/
def traverseFields (cfg : GraphQLConfig) (reg : TraitRegistry)
    (recurse : String → List String → List String →
      Option (List String × List N1Error))
    (type_name : String) (path : List String) :
    List FieldConfig → List String → Option (List String × List N1Error)
  | [], visited => some (visited, [])
  | field :: rest, visited =>
    let field_path := path ++ [field.name]
    let errs := check_field cfg reg type_name field field_path
    match field.field_type.inner_type_name with
    | some inner =>
      if (cfg.lookupType inner).isSome then
        match recurse inner field_path visited with
        | none => none
        | some (v1, errs1) =>
          match traverseFields cfg reg recurse type_name path rest v1 with
          | none => none
          | some (v2, errs2) => some (v2, errs ++ (errs1 ++ errs2))
      else
        match traverseFields cfg reg recurse type_name path rest visited with
        | none => none
        | some (v2, errs2) => some (v2, errs ++ errs2)
    | none =>
      match traverseFields cfg reg recurse type_name path rest visited with
      | none => none
      | some (v2, errs2) => some (v2, errs ++ errs2)

/-- Embeds `N1Detector::traverse`, with explicit fuel: return if the type is already
on the current path; insert it; return if it has no configuration; process
its fields; remove it on backtrack. -/
def traverseF (cfg : GraphQLConfig) (reg : TraitRegistry) :
    Nat → String → List String → List String →
    Option (List String × List N1Error)
  | 0, _, _, _ => none
  | fuel + 1, type_name, path, visited =>
    if visited.contains type_name then some (visited, [])
    else
      let visited1 := type_name :: visited
      match cfg.lookupType type_name with
      | none => some (visited1, [])
      | some tc =>
        match traverseFields cfg reg
            (fun tn p v => traverseF cfg reg fuel tn p v)
            type_name path tc.fields visited1 with
        | none => none
        | some (v2, errs) => some (v2.erase type_name, errs)

/-- The complete violation list `N1Detector::detect` accumulates: the errors
of the traversal from the query root (empty when no query root is set).
Fuel `types.length + 1` provably suffices (`traverse_terminates`), making
the `none` fallback unreachable. -/
def detectErrors (cfg : GraphQLConfig) (reg : TraitRegistry) : List N1Error :=
  match cfg.query_type with
  | none => []
  | some query_type =>
    match traverseF cfg reg (cfg.types.length + 1)
        query_type [query_type] [] with
    | some (_, errs) => errs
    | none => []

/-- Embeds `N1Detector::detect`: `Ok` on an empty violation list, otherwise `Err`
with the complete list. -/
def detect (cfg : GraphQLConfig) (reg : TraitRegistry) :
    Except (List N1Error) Unit :=
  let errs := detectErrors cfg reg
  if errs.isEmpty then .ok () else .error errs

/-! ## Directive extraction

`parse_resolver_directive` (`graphql-resolver/src/directive/resolver_directive.rs`),
`parse_batch_key_directive` (`graphql-trait-resolver/src/directive/batch_key.rs`),
`parse_call_directive` and `parse_argument_mapping`
(`graphql-trait-resolver/src/directive/call_directive.rs`),
`parse_trait_directive` (`graphql-trait-resolver/src/directive/trait_directive.rs`). -/

/-- Embeds `ResolverDirective`. -/
structure ResolverDirective where
  name : String

/-- Embeds `parse_resolver_directive`. -/
def parse_resolver_directive (directive : ConstDirective) :
    Option ResolverDirective :=
  if directive.name == "resolver" then
    (get_string_argument directive "name").map (fun n => ⟨n⟩)
  else none

/-- Embeds `TraitDirective`. -/
structure TraitDirective where
  name : String

/-- Embeds `parse_trait_directive`. -/
def parse_trait_directive (directive : ConstDirective) :
    Option TraitDirective :=
  if directive.name == "trait" then
    (get_string_argument directive "name").map (fun n => ⟨n⟩)
  else none

/-- Embeds `BatchKeyDirective`. -/
structure BatchKeyDirective where
  field : String

/-- Embeds `parse_batch_key_directive`. -/
def parse_batch_key_directive (directive : ConstDirective) :
    Option BatchKeyDirective :=
  if directive.name == "batchKey" then
    (get_string_argument directive "field").map (fun f => ⟨f⟩)
  else none

/-- Embeds `parse_argument_mapping`
(`graphql-trait-resolver/src/directive/call_directive.rs`): the
`"$parent."` / `"$arg."` / literal dispatch over directive argument values. -/
def parse_argument_mapping (value : ConstValue) : Option ArgumentMapping :=
  match value with
  | .string s =>
    match stripPat "$parent." s with
    | some field => some (.ParentField field)
    | none =>
      match stripPat "$arg." s with
      | some arg => some (.Argument arg)
      | none => some (.Literal (const_value_to_json value))
  | _ => some (.Literal (const_value_to_json value))

/-- Embeds `CallDirective`; the argument hash map is an association list built in
iteration order (object keys are unique in the source object literal). -/
structure CallDirective where
  trait_name : String
  args : List (String × ArgumentMapping)

/-- Embeds `parse_call_args`. -/
def parse_call_args (directive : ConstDirective) :
    List (String × ArgumentMapping) :=
  match get_directive_argument directive "args" with
  | some (.object entries) =>
    entries.filterMap
      (fun kv => (parse_argument_mapping kv.2).map (fun m => (kv.1, m)))
  | _ => []

/-- Embeds `parse_call_directive`. -/
def parse_call_directive (directive : ConstDirective) :
    Option CallDirective :=
  if directive.name == "call" then
    (get_string_argument directive "trait").map
      (fun t => ⟨t, parse_call_args directive⟩)
  else none

/-- Embeds `extract_resolver` (`graphql-resolver/src/config/parser.rs`): a parsed
`call` directive wins; otherwise a parsed `resolver` directive yields a
`Trait` binding, reading the sibling `batchKey` directive's `field`. -/
def extract_resolver (directives : List ConstDirective) :
    Option ResolverConfig :=
  match (find_directive directives "call").bind parse_call_directive with
  | some call => some (.Call call.trait_name call.args)
  | none =>
    match (find_directive directives "resolver").bind
        parse_resolver_directive with
    | some rd =>
      some (.Trait rd.name
        (((find_directive directives "batchKey").bind
          parse_batch_key_directive).map (fun b => b.field)))
    | none => none

/-- Modelled from the spec: the `graphql-trait-resolver` crate's resolver
extraction.  Its config parser (the caller of `parse_trait_directive`) is
declared in `graphql-trait-resolver/src/config/mod.rs` but the file itself is
absent from `src/`; per the spec, "if a `call` directive is present, produce
`ResolverConfig::Call`; else if a `resolver`/`trait` directive is present,
produce `ResolverConfig::Trait`, additionally reading a sibling `batchKey`
directive's `field` argument if present" — here with the crate's legacy
`trait` directive, through the crate's own `parse_trait_directive` from
`src/`. -/
def legacy_extract_resolver (directives : List ConstDirective) :
    Option ResolverConfig :=
  match (find_directive directives "call").bind parse_call_directive with
  | some call => some (.Call call.trait_name call.args)
  | none =>
    match (find_directive directives "trait").bind parse_trait_directive with
    | some td =>
      some (.Trait td.name
        (((find_directive directives "batchKey").bind
          parse_batch_key_directive).map (fun b => b.field)))
    | none => none

/-! ## Schema document model and config building
(`graphql-resolver/src/config/parser.rs`)

The grammar collaborator (`async_graphql_parser::parse_schema`) is external;
the embedding starts from its output, the parsed `ServiceDocument`, and
embeds everything the repository does with it. -/

mutual
/-- Embeds `async_graphql_parser::types::BaseType`. -/
inductive GBaseType where
  | named (name : String) : GBaseType
  | list (inner : GType) : GBaseType

/-- Embeds `async_graphql_parser::types::Type`: a base type plus nullability. -/
inductive GType where
  | mk (base : GBaseType) (nullable : Bool) : GType
end

mutual
/-- Embeds `convert_type` (`graphql-resolver/src/config/parser.rs`). -/
def convert_type : GType → FieldType
  | .mk base nullable => convert_base_type base nullable

/-- Embeds `convert_base_type` (`graphql-resolver/src/config/parser.rs`). -/
def convert_base_type : GBaseType → Bool → FieldType
  | .named name, nullable =>
    if nullable then .Named name else .NonNull (.Named name)
  | .list inner, nullable =>
    if nullable then .List (convert_type inner)
    else .NonNull (.List (convert_type inner))
end

/-- Embeds `async_graphql_parser::types::InputValueDefinition`, as observed. -/
structure InputValueDefinition where
  name : String
  ty : GType
  default_value : Option ConstValue

/-- Embeds `async_graphql_parser::types::FieldDefinition`, as observed. -/
structure FieldDefinition where
  name : String
  ty : GType
  arguments : List InputValueDefinition
  directives : List ConstDirective

/-- Embeds `async_graphql_parser::types::TypeKind`, as matched by
`process_type_definition`. -/
inductive TypeKind where
  | object (fields : List FieldDefinition) : TypeKind
  | interface (fields : List FieldDefinition) : TypeKind
  | scalar : TypeKind
  | enumKind : TypeKind
  | union : TypeKind
  | inputObject : TypeKind

/-- Embeds `async_graphql_parser::types::TypeDefinition`, as observed. -/
structure TypeDefinition where
  name : String
  kind : TypeKind

/-- Embeds `async_graphql_parser::types::SchemaDefinition`, as observed
(`query` / `mutation` root declarations). -/
structure SchemaDefinition where
  query : Option String
  mutation : Option String

/-- Embeds `async_graphql_parser::types::TypeSystemDefinition`. -/
inductive TypeSystemDefinition where
  | schema (s : SchemaDefinition) : TypeSystemDefinition
  | typeDef (t : TypeDefinition) : TypeSystemDefinition
  | directiveDef : TypeSystemDefinition

/-- A `ServiceDocument` is its definition list. -/
def ServiceDocument := List TypeSystemDefinition

/-- Embeds `process_arguments` (`graphql-resolver/src/config/parser.rs`). -/
def process_arguments (args : List InputValueDefinition) :
    List ArgumentConfig :=
  args.map (fun a =>
    { name := a.name
      arg_type := convert_type a.ty
      default_value := a.default_value.map const_value_to_json })

/-- Embeds `process_field` (`graphql-resolver/src/config/parser.rs`). -/
def process_field (field : FieldDefinition) : FieldConfig :=
  { name := field.name
    field_type := convert_type field.ty
    arguments := process_arguments field.arguments
    resolver := extract_resolver field.directives }

/-- Embeds `process_fields` (`graphql-resolver/src/config/parser.rs`). -/
def process_fields (fields : List FieldDefinition) : List FieldConfig :=
  fields.map process_field

/-- Embeds `process_type_definition` (`graphql-resolver/src/config/parser.rs`):
skip names with the reserved `__` introspection pattern at the front, build a
`TypeConfig` for object and interface kinds only.  (The Rust function wraps
this in `Result` but never errs.) -/
def process_type_definition (type_def : TypeDefinition) : Option TypeConfig :=
  if startsWithPat "__" type_def.name then none
  else
    match type_def.kind with
    | .object fields => some ⟨type_def.name, process_fields fields⟩
    | .interface fields => some ⟨type_def.name, process_fields fields⟩
    | _ => none

/-- Embeds `process_schema_definition` (`graphql-resolver/src/config/parser.rs`):
a declared root overwrites; an undeclared one leaves the previous value. -/
def process_schema_definition (schema_def : SchemaDefinition)
    (cfg : GraphQLConfig) : GraphQLConfig :=
  { cfg with
    query_type := match schema_def.query with
      | some q => some q
      | none => cfg.query_type
    mutation_type := match schema_def.mutation with
      | some m => some m
      | none => cfg.mutation_type }

/-- Embeds `infer_root_types` (`graphql-resolver/src/config/parser.rs`). -/
def infer_root_types (cfg : GraphQLConfig) : GraphQLConfig :=
  let cfg :=
    if cfg.query_type.isNone && (cfg.lookupType "Query").isSome then
      { cfg with query_type := some "Query" }
    else cfg
  if cfg.mutation_type.isNone && (cfg.lookupType "Mutation").isSome then
    { cfg with mutation_type := some "Mutation" }
  else cfg

/-- The definition loop of `build_config_from_document`
(`graphql-resolver/src/config/parser.rs`). -/
def build_config_core : List TypeSystemDefinition → GraphQLConfig →
    GraphQLConfig
  | [], cfg => cfg
  | .schema sd :: rest, cfg =>
    build_config_core rest (process_schema_definition sd cfg)
  | .typeDef td :: rest, cfg =>
    build_config_core rest
      (match process_type_definition td with
       | some tc => { cfg with types := alistInsert cfg.types tc.name tc }
       | none => cfg)
  | .directiveDef :: rest, cfg => build_config_core rest cfg

/-- Embeds `build_config_from_document` (`graphql-resolver/src/config/parser.rs`)
on an already-parsed document.  (The Rust function wraps this in `Result`
but, past the external grammar step, never errs.) -/
def build_config_from_document (doc : List TypeSystemDefinition) :
    GraphQLConfig :=
  infer_root_types (build_config_core doc {})

/-- The query-root declaration the schema-definition loop leaves in place:
the last explicitly declared query root, else the inherited one. -/
def declared_query : List TypeSystemDefinition → Option String →
    Option String
  | [], acc => acc
  | .schema sd :: rest, acc =>
    declared_query rest (match sd.query with | some q => some q | none => acc)
  | _ :: rest, acc => declared_query rest acc

/-- Mutation analogue of `declared_query`. -/
def declared_mutation : List TypeSystemDefinition → Option String →
    Option String
  | [], acc => acc
  | .schema sd :: rest, acc =>
    declared_mutation rest
      (match sd.mutation with | some m => some m | none => acc)
  | _ :: rest, acc => declared_mutation rest acc

/-! ## Analysis helpers -/

/-- The chain of ancestor field types `is_in_list_context` walks: the same
recursion as `listCtxWalk`, collecting each found field type instead of
testing it.  The walk is true exactly when some collected type is a list
(`listCtxWalk_eq_chain_any`). -/
def listCtxChain (cfg : GraphQLConfig) : List String → String →
    List FieldType
  | [], _ => []
  | seg :: rest, current =>
    match cfg.lookupType current with
    | none => []
    | some tc =>
      match tc.fields.find? (fun f => f.name == seg) with
      | none => []
      | some fc =>
        fc.field_type ::
          (match fc.field_type.inner_type_name with
           | some inner =>
             if (cfg.lookupType inner).isSome then listCtxChain cfg rest inner
             else listCtxChain cfg rest current
           | none => listCtxChain cfg rest current)

/-- Number of configured type names not yet on the visited path: the
termination measure of the detector's traversal. -/
def unvisitedCount (cfg : GraphQLConfig) (visited : List String) : Nat :=
  ((cfg.types.map Prod.fst).filter (fun t => !(visited.contains t))).length

/-- Reachability in the configuration's type graph: `b` is reachable from
`a` through zero or more configured fields whose inner named type steps to
the next type.  The traversal only ever enters types reachable from the
query root in this sense. -/
inductive ReachableFrom (cfg : GraphQLConfig) : String → String → Prop where
  | refl (t : String) : ReachableFrom cfg t t
  | step {a b c : String} (h : ReachableFrom cfg a b) (tc : TypeConfig)
      (hb : cfg.lookupType b = some tc) (f : FieldConfig)
      (hf : f ∈ tc.fields) (hc : f.field_type.inner_type_name = some c) :
      ReachableFrom cfg a c

/-- Renames every `trait` directive to a `resolver` directive with the same
arguments, for comparing the legacy extraction with `extract_resolver`. -/
def renameTraitDirectives (directives : List ConstDirective) :
    List ConstDirective :=
  directives.map (fun d =>
    if d.name == "trait" then { d with name := "resolver" } else d)

/-! ## Concrete fixtures for witnesses -/

/-- An empty registry (`TraitRegistry::default`). -/
def regEmptyW : TraitRegistry := {}

/-- The field `posts: [Post!]! @resolver(name: "getPosts")` of the spec's
concrete scenario A. -/
def postsFieldW : FieldConfig :=
  ⟨"posts", .NonNull (.List (.NonNull (.Named "Post"))), [],
    some (.Trait "getPosts" none)⟩

/-- Scenario A configuration:
`type Query { users: [User!]! } type User { id: ID! posts: ... } type Post`. -/
def cfgScenarioA : GraphQLConfig :=
  { types :=
      [("Query", ⟨"Query",
          [⟨"users", .NonNull (.List (.NonNull (.Named "User"))), [],
            none⟩]⟩),
       ("User", ⟨"User",
          [⟨"id", .NonNull (.Named "ID"), [], none⟩, postsFieldW]⟩),
       ("Post", ⟨"Post", [⟨"id", .NonNull (.Named "ID"), [], none⟩]⟩)]
    query_type := some "Query" }

/-- A configuration with two unbatched resolver fields in list context. -/
def cfgTwoViolations : GraphQLConfig :=
  { types :=
      [("Query", ⟨"Query",
          [⟨"orgs", .List (.Named "Org"), [], none⟩]⟩),
       ("Org", ⟨"Org",
          [⟨"owner", .Named "User", [], some (.Trait "getOwner" none)⟩,
           ⟨"posts", .List (.Named "Post"), [],
             some (.Trait "getPosts" none)⟩]⟩)]
    query_type := some "Query" }

/-- A self-referential configuration: `User.friends: [User!]!`. -/
def cfgSelfRef : GraphQLConfig :=
  { types :=
      [("Query", ⟨"Query", [⟨"users", .List (.Named "User"), [], none⟩]⟩),
       ("User", ⟨"User",
          [⟨"friends", .NonNull (.List (.NonNull (.Named "User"))), [],
            none⟩]⟩)]
    query_type := some "Query" }

/-- A configuration with no query root but a mutation root whose type holds
an unbatched resolver field in list context. -/
def cfgMutationOnly : GraphQLConfig :=
  { types :=
      [("Mutation", ⟨"Mutation",
          [⟨"batch", .List (.Named "Item"), [], none⟩]⟩),
       ("Item", ⟨"Item",
          [⟨"tags", .List (.Named "Tag"), [],
            some (.Trait "getTags" none)⟩]⟩)]
    query_type := none
    mutation_type := some "Mutation" }

/-- A document with a plain `type Query` and no schema block. -/
def docInferW : List TypeSystemDefinition :=
  [.typeDef ⟨"Query",
     .object [⟨"hello", .mk (.named "String") true, [], []⟩]⟩,
   .typeDef ⟨"Mutation",
     .object [⟨"setHello", .mk (.named "String") true, [], []⟩]⟩]

/-- A document with an introspection-named type next to `Query`. -/
def docIntroW : List TypeSystemDefinition :=
  [.typeDef ⟨"Query",
     .object [⟨"hello", .mk (.named "String") true, [], []⟩]⟩,
   .typeDef ⟨"__Internal",
     .object [⟨"data", .mk (.named "String") true, [], []⟩]⟩]

/-- Directives `@trait(name: "getPosts") @batchKey(field: "userId")`. -/
def dsTraitW : List ConstDirective :=
  [⟨"trait", [("name", .string "getPosts")]⟩,
   ⟨"batchKey", [("field", .string "userId")]⟩]

/-- A registry with a single resolver and a single batch resolver. -/
def regOneW : TraitRegistry :=
  (regEmptyW.register_resolver ⟨"getUser"⟩).register_batch_resolver
    ⟨"getPosts", "userId"⟩

/-! ## Support lemmas -/

theorem dataAppendStr (a b : String) : (a ++ b).data = a.data ++ b.data := by
  cases a
  cases b
  rfl

theorem dropPreChars_self_append :
    ∀ (p rest : List Char), dropPreChars p (p ++ rest) = some rest := by
  intro p
  induction p with
  | nil => intro rest; rfl
  | cons c cs ih => intro rest; simp [dropPreChars, ih]

theorem stripPat_self_append (pat x : String) :
    stripPat pat (pat ++ x) = some x := by
  unfold stripPat
  rw [dataAppendStr, dropPreChars_self_append]
  cases x
  rfl

theorem is_in_list_context_concat (cfg : GraphQLConfig) (p : List String)
    (x : String) :
    is_in_list_context cfg (p ++ [x]) =
      if p.length < 1 then false
      else listCtxWalk cfg (p.drop 1) (cfg.query_type.getD "Query") := by
  unfold is_in_list_context
  rw [List.dropLast_concat]
  by_cases h : p.length < 1
  · have h2 : (p ++ [x]).length < 2 := by simp; omega
    rw [if_pos h2, if_pos h]
  · have h2 : ¬((p ++ [x]).length < 2) := by simp; omega
    rw [if_neg h2, if_neg h]

theorem listCtxWalk_eq_chain_any (cfg : GraphQLConfig) :
    ∀ (segs : List String) (current : String),
      listCtxWalk cfg segs current =
        (listCtxChain cfg segs current).any (fun t => t.is_list) := by
  intro segs
  induction segs with
  | nil => intro current; rfl
  | cons seg rest ih =>
    intro current
    cases hl : cfg.lookupType current with
    | none => simp [listCtxWalk, listCtxChain, hl]
    | some tc =>
      cases hf : tc.fields.find? (fun f => f.name == seg) with
      | none => simp [listCtxWalk, listCtxChain, hl, hf]
      | some fc =>
        cases hil : fc.field_type.is_list with
        | true => simp [listCtxWalk, listCtxChain, hl, hf, hil]
        | false =>
          cases hin : fc.field_type.inner_type_name with
          | none => simp [listCtxWalk, listCtxChain, hl, hf, hil, hin, ih]
          | some inner =>
            cases hk : (cfg.lookupType inner).isSome with
            | true =>
              simp [listCtxWalk, listCtxChain, hl, hf, hil, hin, hk, ih]
            | false =>
              simp [listCtxWalk, listCtxChain, hl, hf, hil, hin, hk, ih]

/-! ## Claim theorems and witnesses -/

/-- C1: a resolver-backed field checked at a path that is in list context is
flagged exactly when it is not provably batched — never when its
`ResolverConfig` carries a `batch_key` (`is_batched`), never when the
registry has a batch resolver under the resolver's bound name, and with
neither it yields exactly one violation carrying the field's exact name. -/
theorem n1_flag_iff_unbatched (cfg : GraphQLConfig) (reg : TraitRegistry)
    (parent_type : String) (field : FieldConfig) (path : List String)
    (r : ResolverConfig) (hres : field.resolver = some r)
    (hctx : is_in_list_context cfg path = true) :
    (r.is_batched = true → check_field cfg reg parent_type field path = []) ∧
    (reg.has_batch_resolver r.resolver_name = true →
      check_field cfg reg parent_type field path = []) ∧
    (r.is_batched = false →
      reg.has_batch_resolver r.resolver_name = false →
      ∃ e, check_field cfg reg parent_type field path = [e] ∧
        e.field_name = field.name) := by
  unfold check_field
  rw [hres]
  refine ⟨?_, ?_, ?_⟩
  · intro h
    simp [h, hctx]
  · intro h
    simp [h, hctx]
  · intro h1 h2
    simp only [h1, h2, hctx, Bool.or_self, Bool.not_false, Bool.and_true,
      if_true]
    exact ⟨_, rfl, rfl⟩

/-- Witness for C1 at the spec's concrete scenario A: the `posts` field of
`User`, reached through the list-shaped `users`, with no `batchKey` and an
empty registry, produces exactly one violation named `posts`. -/
theorem n1_flag_iff_unbatched_witness :
    postsFieldW.resolver = some (.Trait "getPosts" none) ∧
    is_in_list_context cfgScenarioA ["Query", "users", "posts"] = true ∧
    ∃ e, check_field cfgScenarioA regEmptyW "User" postsFieldW
        ["Query", "users", "posts"] = [e] ∧ e.field_name = postsFieldW.name :=
  ⟨rfl, by decide,
    (n1_flag_iff_unbatched cfgScenarioA regEmptyW "User" postsFieldW
      ["Query", "users", "posts"] (.Trait "getPosts" none) rfl
      (by decide)).2.2 rfl rfl⟩

/-- C3: the list-context check examines only the ancestor segments — its
result does not depend on the path's final segment — and a field reached
through ancestors that are all non-list is never flagged, regardless of the
field's own list-shape or batching state. -/
theorem list_context_ancestors_only (cfg : GraphQLConfig)
    (reg : TraitRegistry) (parent_type : String) (field : FieldConfig)
    (p : List String) (x y : String) :
    is_in_list_context cfg (p ++ [x]) = is_in_list_context cfg (p ++ [y]) ∧
    ((∀ t ∈ listCtxChain cfg (p.drop 1) (cfg.query_type.getD "Query"),
        t.is_list = false) →
      check_field cfg reg parent_type field (p ++ [field.name]) = []) := by
  constructor
  · rw [is_in_list_context_concat, is_in_list_context_concat]
  · intro hall
    have hfalse : is_in_list_context cfg (p ++ [field.name]) = false := by
      rw [is_in_list_context_concat]
      by_cases h : p.length < 1
      · simp [h]
      · simp only [h, if_false]
        rw [listCtxWalk_eq_chain_any]
        simp only [List.any_eq_false]
        intro t ht
        simp [hall t ht]
    unfold check_field
    cases hr : field.resolver with
    | none => rfl
    | some r => simp [hfalse]

/-- Witness for C3: in scenario A extended with a non-list `user` field on
`Query`, a resolver-backed field reached through `Query.user` (non-list) is
not flagged, and the walk's verdict ignores the final segment. -/
theorem list_context_ancestors_only_witness :
    (∀ t ∈ listCtxChain cfgScenarioA (["Query", "id"].drop 1)
        (cfgScenarioA.query_type.getD "Query"), t.is_list = false) ∧
    check_field cfgScenarioA regEmptyW "User" postsFieldW
      (["Query", "id"] ++ [postsFieldW.name]) = [] :=
  ⟨by decide,
    (list_context_ancestors_only cfgScenarioA regEmptyW "User" postsFieldW
      ["Query", "id"] "a" "b").2 (by decide)⟩

/-- C7: directive argument values dispatch to argument mappings by pattern:
strings of the form `$parent.X` map to `ParentField X`, strings of the form
`$arg.X` map to `Argument X`, every other string maps to a string `Literal`,
and every non-string value maps to a `Literal` of its JSON conversion. -/
theorem argument_mapping_dispatch :
    (∀ x : String,
      parse_argument_mapping (.string ("$parent." ++ x)) =
        some (.ParentField x)) ∧
    (∀ x : String,
      parse_argument_mapping (.string ("$arg." ++ x)) =
        some (.Argument x)) ∧
    (∀ s : String, stripPat "$parent." s = none → stripPat "$arg." s = none →
      parse_argument_mapping (.string s) = some (.Literal (.str s))) ∧
    (∀ v : ConstValue, (∀ s, v ≠ .string s) →
      parse_argument_mapping v = some (.Literal (const_value_to_json v))) := by
  refine ⟨?_, ?_, ?_, ?_⟩
  · intro x
    have h : stripPat "$parent." ("$parent." ++ x) = some x :=
      stripPat_self_append _ _
    simp [parse_argument_mapping, h]
  · intro x
    have h1 : stripPat "$parent." ("$arg." ++ x) = none := by
      unfold stripPat
      rw [dataAppendStr]
      rfl
    have h2 : stripPat "$arg." ("$arg." ++ x) = some x :=
      stripPat_self_append _ _
    simp [parse_argument_mapping, h1, h2]
  · intro s h1 h2
    simp [parse_argument_mapping, h1, h2, const_value_to_json]
  · intro v h
    cases v with
    | string s => exact absurd rfl (h s)
    | null => rfl
    | boolean b => rfl
    | number n => rfl
    | enumv e => rfl
    | list elems => rfl
    | object entries => rfl
    | binary bytes => rfl

/-- Witness for C7 at concrete values: a parent reference, an argument
reference, a plain string literal and a non-string literal. -/
theorem argument_mapping_dispatch_witness :
    parse_argument_mapping (.string ("$parent." ++ "id")) =
      some (.ParentField "id") ∧
    parse_argument_mapping (.string ("$arg." ++ "userId")) =
      some (.Argument "userId") ∧
    parse_argument_mapping (.string "plain") = some (.Literal (.str "plain")) ∧
    parse_argument_mapping (.boolean true) =
      some (.Literal (const_value_to_json (.boolean true))) :=
  ⟨argument_mapping_dispatch.1 "id",
   argument_mapping_dispatch.2.1 "userId",
   argument_mapping_dispatch.2.2.1 "plain" (by decide) (by decide),
   argument_mapping_dispatch.2.2.2 (.boolean true) (by intro s h; cases h)⟩

/-- C9: registry lookups return the registered handle when the name is
present in the respective namespace and otherwise fail with `NotFound`
carrying exactly the missing name; both lookups are total functions that
never fail any other way. -/
theorem registry_lookup_spec (reg : TraitRegistry) (name : String) :
    (∀ r, alistLookup reg.resolvers name = some r →
      reg.get_resolver name = .ok r) ∧
    (alistLookup reg.resolvers name = none →
      reg.get_resolver name = .error (.NotFound name)) ∧
    (∀ e, reg.get_resolver name = .error e → e = .NotFound name) ∧
    (∀ r, alistLookup reg.batch_resolvers name = some r →
      reg.get_batch_resolver name = .ok r) ∧
    (alistLookup reg.batch_resolvers name = none →
      reg.get_batch_resolver name = .error (.NotFound name)) ∧
    (∀ e, reg.get_batch_resolver name = .error e → e = .NotFound name) := by
  refine ⟨?_, ?_, ?_, ?_, ?_, ?_⟩
  · intro r h
    simp [TraitRegistry.get_resolver, h]
  · intro h
    simp [TraitRegistry.get_resolver, h]
  · intro e h
    unfold TraitRegistry.get_resolver at h
    cases hl : alistLookup reg.resolvers name with
    | some r => rw [hl] at h; cases h
    | none => rw [hl] at h; cases h; rfl
  · intro r h
    simp [TraitRegistry.get_batch_resolver, h]
  · intro h
    simp [TraitRegistry.get_batch_resolver, h]
  · intro e h
    unfold TraitRegistry.get_batch_resolver at h
    cases hl : alistLookup reg.batch_resolvers name with
    | some r => rw [hl] at h; cases h
    | none => rw [hl] at h; cases h; rfl

/-- Witness for C9 on a one-entry registry: a present plain resolver is
returned, a missing batch name fails with `NotFound` of that very name. -/
theorem registry_lookup_spec_witness :
    regOneW.get_resolver "getUser" = .ok ⟨"getUser"⟩ ∧
    regOneW.get_batch_resolver "missing" = .error (.NotFound "missing") :=
  ⟨(registry_lookup_spec regOneW "getUser").1 ⟨"getUser"⟩ (by decide),
   (registry_lookup_spec regOneW "missing").2.2.2.2.1 (by decide)⟩

/-! ## Traversal lemmas: termination and locality -/

theorem alistLookup_some_mem {α : Type} :
    ∀ (l : List (String × α)) (k : String) (v : α),
      alistLookup l k = some v → k ∈ l.map Prod.fst := by
  intro l
  induction l with
  | nil => intro k v h; cases h
  | cons kv rest ih =>
    intro k v h
    obtain ⟨k0, v0⟩ := kv
    by_cases hk : (k0 == k) = true
    · have hk2 : k0 = k := by simpa using hk
      simp [hk2]
    · simp only [alistLookup] at h
      rw [if_neg hk] at h
      simp only [List.map_cons, List.mem_cons]
      exact Or.inr (ih k v h)

theorem filter_len_le_of_imp {α : Type} (p q : α → Bool)
    (himp : ∀ a, p a = true → q a = true) :
    ∀ (l : List α), (l.filter p).length ≤ (l.filter q).length := by
  intro l
  induction l with
  | nil => exact Nat.le_refl 0
  | cons a rest ih =>
    cases hp : p a with
    | true =>
      have hq := himp a hp
      simp [List.filter_cons, hp, hq]
      omega
    | false =>
      cases hq : q a with
      | true =>
        simp [List.filter_cons, hp, hq]
        omega
      | false =>
        simp [List.filter_cons, hp, hq]
        exact ih

theorem filter_cons_pos {α : Type} (p : α → Bool) (a : α) (l : List α)
    (h : p a = true) : (a :: l).filter p = a :: l.filter p := by
  simp [List.filter_cons, h]

theorem filter_cons_neg {α : Type} (p : α → Bool) (a : α) (l : List α)
    (h : p a = false) : (a :: l).filter p = l.filter p := by
  simp [List.filter_cons, h]

theorem unvisited_cons_lt (visited : List String) (tn : String)
    (hnv : visited.contains tn = false) :
    ∀ (keys : List String), tn ∈ keys →
      (keys.filter (fun t => !((tn :: visited).contains t))).length <
      (keys.filter (fun t => !(visited.contains t))).length := by
  have himp : ∀ t, (!((tn :: visited).contains t)) = true →
      (!(visited.contains t)) = true := by
    intro t h
    cases hv : visited.contains t with
    | false => rfl
    | true =>
      rw [List.contains_cons, hv] at h
      simp at h
  intro keys
  induction keys with
  | nil => intro h; cases h
  | cons k rest ih =>
    intro hmem
    rcases List.mem_cons.mp hmem with hk | hk
    · subst hk
      have hct : (tn :: visited).contains tn = true := by
        rw [List.contains_cons]
        simp
      have hS : (!((tn :: visited).contains tn)) = false := by
        rw [hct]
        rfl
      have hW : (!(visited.contains tn)) = true := by
        rw [hnv]
        rfl
      rw [filter_cons_neg (fun t => !((tn :: visited).contains t)) tn rest hS,
        filter_cons_pos (fun t => !(visited.contains t)) tn rest hW]
      have := filter_len_le_of_imp _ _ himp rest
      simp only [List.length_cons]
      omega
    · cases hS : (!((tn :: visited).contains k)) with
      | true =>
        have hW := himp k hS
        rw [filter_cons_pos (fun t => !((tn :: visited).contains t)) k rest hS,
          filter_cons_pos (fun t => !(visited.contains t)) k rest hW]
        have := ih hk
        simp only [List.length_cons]
        omega
      | false =>
        cases hW : (!(visited.contains k)) with
        | true =>
          rw [filter_cons_neg (fun t => !((tn :: visited).contains t)) k rest
              hS,
            filter_cons_pos (fun t => !(visited.contains t)) k rest hW]
          have := ih hk
          simp only [List.length_cons]
          omega
        | false =>
          rw [filter_cons_neg (fun t => !((tn :: visited).contains t)) k rest
              hS,
            filter_cons_neg (fun t => !(visited.contains t)) k rest hW]
          exact ih hk

theorem traverseFields_total (cfg : GraphQLConfig) (reg : TraitRegistry)
    (recurse : String → List String → List String →
      Option (List String × List N1Error))
    (V : List String)
    (hrec : ∀ inner p, (cfg.lookupType inner).isSome = true →
      ∃ errs, recurse inner p V = some (V, errs)) :
    ∀ (fields : List FieldConfig) (tn : String) (path : List String),
      ∃ errs, traverseFields cfg reg recurse tn path fields V =
        some (V, errs) := by
  intro fields
  induction fields with
  | nil => intro tn path; exact ⟨[], rfl⟩
  | cons field rest ih =>
    intro tn path
    obtain ⟨errs2, h2⟩ := ih tn path
    cases hin : field.field_type.inner_type_name with
    | none =>
      exact ⟨check_field cfg reg tn field (path ++ [field.name]) ++ errs2,
        by simp [traverseFields, hin, h2]⟩
    | some inner =>
      cases hk : (cfg.lookupType inner).isSome with
      | false =>
        exact ⟨check_field cfg reg tn field (path ++ [field.name]) ++ errs2,
          by simp [traverseFields, hin, hk, h2]⟩
      | true =>
        obtain ⟨errs1, h1⟩ := hrec inner (path ++ [field.name]) hk
        exact ⟨check_field cfg reg tn field (path ++ [field.name]) ++
            (errs1 ++ errs2),
          by simp [traverseFields, hin, hk, h1, h2]⟩

theorem traverseF_succ_visited (cfg : GraphQLConfig) (reg : TraitRegistry)
    (fuel : Nat) (tn : String) (path visited : List String)
    (hc : visited.contains tn = true) :
    traverseF cfg reg (fuel + 1) tn path visited = some (visited, []) := by
  simp only [traverseF, hc, eq_self_iff_true, if_true]

theorem traverseF_succ_enter (cfg : GraphQLConfig) (reg : TraitRegistry)
    (fuel : Nat) (tn : String) (path visited : List String) (tc : TypeConfig)
    (hc : visited.contains tn = false) (hl : cfg.lookupType tn = some tc) :
    traverseF cfg reg (fuel + 1) tn path visited =
      match traverseFields cfg reg
          (fun tn2 p2 v2 => traverseF cfg reg fuel tn2 p2 v2)
          tn path tc.fields (tn :: visited) with
      | none => none
      | some (v2, errs) => some (v2.erase tn, errs) := by
  simp only [traverseF, hc, Bool.false_eq_true, if_false, hl]

theorem traverseF_succ_unknown (cfg : GraphQLConfig) (reg : TraitRegistry)
    (fuel : Nat) (tn : String) (path visited : List String)
    (hc : visited.contains tn = false) (hl : cfg.lookupType tn = none) :
    traverseF cfg reg (fuel + 1) tn path visited =
      some (tn :: visited, []) := by
  simp only [traverseF, hc, Bool.false_eq_true, if_false, hl]

theorem traverseF_spec :
    ∀ (fuel : Nat) (cfg : GraphQLConfig) (reg : TraitRegistry) (tn : String)
      (path visited : List String),
      unvisitedCount cfg visited < fuel →
      (visited.contains tn = true →
        traverseF cfg reg fuel tn path visited = some (visited, [])) ∧
      (visited.contains tn = false → (cfg.lookupType tn).isSome = true →
        ∃ errs, traverseF cfg reg fuel tn path visited =
          some (visited, errs)) ∧
      (visited.contains tn = false → (cfg.lookupType tn).isSome = false →
        traverseF cfg reg fuel tn path visited = some (tn :: visited, [])) := by
  intro fuel
  induction fuel with
  | zero =>
    intro cfg reg tn path visited h
    exact absurd h (Nat.not_lt_zero _)
  | succ fuel ih =>
    intro cfg reg tn path visited h
    refine ⟨?_, ?_, ?_⟩
    · intro hc
      exact traverseF_succ_visited cfg reg fuel tn path visited hc
    · intro hc hk
      cases hl : cfg.lookupType tn with
      | none => rw [hl] at hk; cases hk
      | some tc =>
        have hmem : tn ∈ cfg.types.map Prod.fst :=
          alistLookup_some_mem _ _ _ hl
        have hlt : unvisitedCount cfg (tn :: visited) < fuel := by
          have := unvisited_cons_lt visited tn hc (cfg.types.map Prod.fst) hmem
          unfold unvisitedCount at h ⊢
          omega
        have hrec : ∀ inner p, (cfg.lookupType inner).isSome = true →
            ∃ errs, traverseF cfg reg fuel inner p (tn :: visited) =
              some (tn :: visited, errs) := by
          intro inner p hk2
          cases hcin : (tn :: visited).contains inner with
          | true =>
            exact ⟨[], (ih cfg reg inner p (tn :: visited) hlt).1 hcin⟩
          | false =>
            exact (ih cfg reg inner p (tn :: visited) hlt).2.1 hcin hk2
        obtain ⟨errs, hfields⟩ :=
          traverseFields_total cfg reg
            (fun tn2 p2 v2 => traverseF cfg reg fuel tn2 p2 v2)
            (tn :: visited) hrec tc.fields tn path
        refine ⟨errs, ?_⟩
        rw [traverseF_succ_enter cfg reg fuel tn path visited tc hc hl,
          hfields]
        simp [List.erase_cons_head]
    · intro hc hk
      cases hl : cfg.lookupType tn with
      | some tc => rw [hl] at hk; cases hk
      | none => exact traverseF_succ_unknown cfg reg fuel tn path visited hc hl

/-- C5: for every finite configuration — self-referential type graphs
included — the detector's traversal terminates once given fuel beyond the
number of unvisited configured types: it returns a result, it refuses to
re-enter a type already on the current path, and on backtrack it restores
the visited set so the type may be revisited via a different path. -/
theorem traverse_terminates (cfg : GraphQLConfig) (reg : TraitRegistry)
    (fuel : Nat) (tn : String) (path visited : List String)
    (h : unvisitedCount cfg visited < fuel) :
    (traverseF cfg reg fuel tn path visited).isSome = true ∧
    (visited.contains tn = true →
      traverseF cfg reg fuel tn path visited = some (visited, [])) ∧
    (visited.contains tn = false → (cfg.lookupType tn).isSome = true →
      ∃ errs, traverseF cfg reg fuel tn path visited =
        some (visited, errs)) := by
  obtain ⟨h1, h2, h3⟩ := traverseF_spec fuel cfg reg tn path visited h
  refine ⟨?_, h1, h2⟩
  cases hc : visited.contains tn with
  | true => rw [h1 hc]; rfl
  | false =>
    cases hk : (cfg.lookupType tn).isSome with
    | true =>
      obtain ⟨errs, he⟩ := h2 hc hk
      rw [he]; rfl
    | false => rw [h3 hc hk]; rfl

/-- Witness for C5 on the spec's self-referential schema
(`User.friends: [User!]!`): the traversal of `User` with fuel 3 terminates
and restores the empty visited set. -/
theorem traverse_terminates_witness :
    unvisitedCount cfgSelfRef [] < 3 ∧
    (traverseF cfgSelfRef regEmptyW 3 "User" ["User"] []).isSome = true ∧
    (∃ errs, traverseF cfgSelfRef regEmptyW 3 "User" ["User"] [] =
      some ([], errs)) :=
  ⟨by decide,
   (traverse_terminates cfgSelfRef regEmptyW 3 "User" ["User"] []
     (by decide)).1,
   (traverse_terminates cfgSelfRef regEmptyW 3 "User" ["User"] []
     (by decide)).2.2 (by decide) (by decide)⟩

theorem detectErrors_eq_traverse (cfg : GraphQLConfig) (reg : TraitRegistry)
    (qt : String) (hq : cfg.query_type = some qt) :
    ∃ v, traverseF cfg reg (cfg.types.length + 1) qt [qt] [] =
      some (v, detectErrors cfg reg) := by
  have hcount : unvisitedCount cfg [] < cfg.types.length + 1 := by
    unfold unvisitedCount
    have h1 := List.length_filter_le
      (fun t => !(([] : List String).contains t)) (cfg.types.map Prod.fst)
    have h2 : (cfg.types.map Prod.fst).length = cfg.types.length :=
      List.length_map _ _
    omega
  have spec := traverseF_spec (cfg.types.length + 1) cfg reg qt [qt] [] hcount
  cases hl : (cfg.lookupType qt).isSome with
  | true =>
    obtain ⟨errs, h⟩ := spec.2.1 rfl hl
    refine ⟨[], ?_⟩
    unfold detectErrors
    rw [hq]
    simp [h]
  | false =>
    have h := spec.2.2 rfl hl
    refine ⟨[qt], ?_⟩
    unfold detectErrors
    rw [hq]
    simp [h]

/-- C2: `detect` returns `Ok` exactly when the violation list is empty, on a
non-empty list it returns `Err` with that complete list, and the list is
exactly what the traversal from the query root found. -/
theorem detect_ok_iff_no_violations (cfg : GraphQLConfig)
    (reg : TraitRegistry) :
    (detect cfg reg = .ok () ↔ detectErrors cfg reg = []) ∧
    ((detectErrors cfg reg).isEmpty = false →
      detect cfg reg = .error (detectErrors cfg reg)) ∧
    (∀ qt, cfg.query_type = some qt →
      ∃ v, traverseF cfg reg (cfg.types.length + 1) qt [qt] [] =
        some (v, detectErrors cfg reg)) := by
  refine ⟨?_, ?_, ?_⟩
  · unfold detect
    cases h : detectErrors cfg reg with
    | nil => simp
    | cons e rest => simp
  · intro h
    unfold detect
    simp [h]
  · intro qt hq
    exact detectErrors_eq_traverse cfg reg qt hq

/-- Witness for C2 on a configuration with two unbatched resolver fields in
list context: the error result carries the complete two-element list. -/
theorem detect_ok_iff_no_violations_witness :
    (detectErrors cfgTwoViolations regEmptyW).isEmpty = false ∧
    detect cfgTwoViolations regEmptyW =
      .error (detectErrors cfgTwoViolations regEmptyW) ∧
    (detectErrors cfgTwoViolations regEmptyW).length = 2 ∧
    (detectErrors cfgTwoViolations regEmptyW).map (fun e => e.field_name) =
      ["owner", "posts"] :=
  ⟨rfl,
   (detect_ok_iff_no_violations cfgTwoViolations regEmptyW).2.1 rfl,
   rfl, rfl⟩

theorem reachable_head_step (cfg : GraphQLConfig) {a b c : String}
    (tc : TypeConfig) (ha : cfg.lookupType a = some tc) (f : FieldConfig)
    (hf : f ∈ tc.fields) (hb : f.field_type.inner_type_name = some b)
    (h : ReachableFrom cfg b c) : ReachableFrom cfg a c := by
  induction h with
  | refl => exact .step (.refl a) tc ha f hf hb
  | step h2 tc2 hb2 f2 hf2 hc2 ih => exact .step ih tc2 hb2 f2 hf2 hc2

theorem check_field_parent (cfg : GraphQLConfig) (reg : TraitRegistry)
    (parent_type : String) (field : FieldConfig) (path : List String) :
    ∀ e ∈ check_field cfg reg parent_type field path,
      e.parent_type = parent_type := by
  intro e he
  cases hr : field.resolver with
  | none =>
    simp only [check_field, hr] at he
    cases he
  | some r =>
    simp only [check_field, hr] at he
    by_cases hcond : (is_in_list_context cfg path &&
        !(r.is_batched || reg.has_batch_resolver r.resolver_name)) = true
    · rw [if_pos hcond] at he
      rw [List.mem_singleton] at he
      subst he
      rfl
    · rw [if_neg hcond] at he
      cases he

theorem traverseFields_reach (cfg : GraphQLConfig) (reg : TraitRegistry)
    (recurse : String → List String → List String →
      Option (List String × List N1Error))
    (tn : String) (tc : TypeConfig) (htc : cfg.lookupType tn = some tc)
    (hrec : ∀ inner p v v' errs, recurse inner p v = some (v', errs) →
      ∀ e ∈ errs, ReachableFrom cfg inner e.parent_type) :
    ∀ (fields : List FieldConfig), (∀ f ∈ fields, f ∈ tc.fields) →
      ∀ (path : List String) (v v' : List String) (errs : List N1Error),
        traverseFields cfg reg recurse tn path fields v = some (v', errs) →
        ∀ e ∈ errs, ReachableFrom cfg tn e.parent_type := by
  intro fields
  induction fields with
  | nil =>
    intro _ path v v' errs h e he
    simp only [traverseFields] at h
    injection h with h2
    injection h2 with h3 h4
    rw [← h4] at he
    cases he
  | cons field rest ih =>
    intro hsub path v v' errs h e he
    have hsubr : ∀ f ∈ rest, f ∈ tc.fields :=
      fun f hf => hsub f (List.mem_cons_of_mem _ hf)
    have hhead : field ∈ tc.fields := hsub field (List.mem_cons_self _ _)
    have hcheck : ∀ e2 ∈ check_field cfg reg tn field
        (path ++ [field.name]), ReachableFrom cfg tn e2.parent_type := by
      intro e2 he2
      rw [check_field_parent cfg reg tn field _ e2 he2]
      exact .refl tn
    cases hin : field.field_type.inner_type_name with
    | none =>
      simp only [traverseFields, hin] at h
      cases hrest : traverseFields cfg reg recurse tn path rest v with
      | none => simp only [hrest] at h; exact Option.noConfusion h
      | some pr =>
        obtain ⟨v2, errs2⟩ := pr
        simp only [hrest] at h
        injection h with h2
        injection h2 with h3 h4
        rw [← h4] at he
        rcases List.mem_append.mp he with hc | hc
        · exact hcheck e hc
        · exact ih hsubr path v v2 errs2 hrest e hc
    | some inner =>
      cases hk : (cfg.lookupType inner).isSome with
      | false =>
        simp only [traverseFields, hin, hk, Bool.false_eq_true, if_false] at h
        cases hrest : traverseFields cfg reg recurse tn path rest v with
        | none => simp only [hrest] at h; exact Option.noConfusion h
        | some pr =>
          obtain ⟨v2, errs2⟩ := pr
          simp only [hrest] at h
          injection h with h2
          injection h2 with h3 h4
          rw [← h4] at he
          rcases List.mem_append.mp he with hc | hc
          · exact hcheck e hc
          · exact ih hsubr path v v2 errs2 hrest e hc
      | true =>
        simp only [traverseFields, hin, hk, if_true] at h
        cases hr1 : recurse inner (path ++ [field.name]) v with
        | none => simp only [hr1] at h; exact Option.noConfusion h
        | some pr1 =>
          obtain ⟨v1, errs1⟩ := pr1
          simp only [hr1] at h
          cases hrest : traverseFields cfg reg recurse tn path rest v1 with
          | none => simp only [hrest] at h; exact Option.noConfusion h
          | some pr =>
            obtain ⟨v2, errs2⟩ := pr
            simp only [hrest] at h
            injection h with h2
            injection h2 with h3 h4
            rw [← h4] at he
            rcases List.mem_append.mp he with hc | hc
            · exact hcheck e hc
            · rcases List.mem_append.mp hc with hc2 | hc2
              · have hreach := hrec inner _ _ _ _ hr1 e hc2
                exact reachable_head_step cfg tc htc field hhead hin hreach
              · exact ih hsubr path v1 v2 errs2 hrest e hc2

theorem traverseF_reach :
    ∀ (fuel : Nat) (cfg : GraphQLConfig) (reg : TraitRegistry) (tn : String)
      (path visited : List String) (v : List String) (errs : List N1Error),
      traverseF cfg reg fuel tn path visited = some (v, errs) →
      ∀ e ∈ errs, ReachableFrom cfg tn e.parent_type := by
  intro fuel
  induction fuel with
  | zero =>
    intro cfg reg tn path visited v errs h
    simp [traverseF] at h
  | succ fuel ih =>
    intro cfg reg tn path visited v errs h e he
    cases hc : visited.contains tn with
    | true =>
      rw [traverseF_succ_visited cfg reg fuel tn path visited hc] at h
      injection h with h2
      injection h2 with h3 h4
      rw [← h4] at he
      cases he
    | false =>
      cases hl : cfg.lookupType tn with
      | none =>
        rw [traverseF_succ_unknown cfg reg fuel tn path visited hc hl] at h
        injection h with h2
        injection h2 with h3 h4
        rw [← h4] at he
        cases he
      | some tc =>
        rw [traverseF_succ_enter cfg reg fuel tn path visited tc hc hl] at h
        cases hf : traverseFields cfg reg
            (fun tn2 p2 v2 => traverseF cfg reg fuel tn2 p2 v2)
            tn path tc.fields (tn :: visited) with
        | none => simp only [hf] at h; exact Option.noConfusion h
        | some pr =>
          obtain ⟨v2, errs2⟩ := pr
          simp only [hf] at h
          injection h with h2
          injection h2 with h3 h4
          rw [← h4] at he
          exact traverseFields_reach cfg reg _ tn tc hl
            (fun inner p vv vv' ee hr => ih cfg reg inner p vv vv' ee hr)
            tc.fields (fun f hf2 => hf2) path (tn :: visited) v2 errs2 hf e he

/-- C10: the detector examines only the subgraph reachable from the query
root — with no query root configured it returns `Ok` without traversing, and
every reported violation sits on a type reachable from the query root, so a
field reachable only from the mutation root is never reported. -/
theorem detect_examines_query_reachable_only (cfg : GraphQLConfig)
    (reg : TraitRegistry) :
    (cfg.query_type = none → detect cfg reg = .ok ()) ∧
    (∀ qt es, cfg.query_type = some qt → detect cfg reg = .error es →
      ∀ e ∈ es, ReachableFrom cfg qt e.parent_type) := by
  constructor
  · intro h
    simp [detect, detectErrors, h]
  · intro qt es hq herr e he
    have hes : es = detectErrors cfg reg := by
      simp only [detect] at herr
      by_cases hemp : (detectErrors cfg reg).isEmpty = true
      · rw [if_pos hemp] at herr
        cases herr
      · rw [if_neg hemp] at herr
        injection herr with h2
        exact h2.symm
    subst hes
    obtain ⟨v, htr⟩ := detectErrors_eq_traverse cfg reg qt hq
    exact traverseF_reach _ cfg reg qt [qt] [] v _ htr e he

/-- Witness for C10: a configuration with no query root but a mutation root
whose type carries an unbatched resolver field in list context builds
cleanly — the mutation-only field is never reported. -/
theorem detect_examines_query_reachable_only_witness :
    cfgMutationOnly.query_type = none ∧
    detect cfgMutationOnly regEmptyW = .ok () :=
  ⟨rfl,
   (detect_examines_query_reachable_only cfgMutationOnly regEmptyW).1 rfl⟩

/-! ## Parser lemmas: root inference, introspection exclusion, trait alias -/

theorem build_core_query :
    ∀ (defs : List TypeSystemDefinition) (cfg : GraphQLConfig),
      (build_config_core defs cfg).query_type =
        declared_query defs cfg.query_type := by
  intro defs
  induction defs with
  | nil => intro cfg; rfl
  | cons d rest ih =>
    intro cfg
    cases d with
    | schema sd =>
      simp only [build_config_core, declared_query]
      rw [ih]
      cases hq : sd.query with
      | some q => simp [process_schema_definition, hq]
      | none => simp [process_schema_definition, hq]
    | typeDef td =>
      simp only [build_config_core, declared_query]
      rw [ih]
      cases hp : process_type_definition td with
      | some tc => simp [hp]
      | none => simp [hp]
    | directiveDef =>
      simp only [build_config_core, declared_query]
      exact ih cfg

theorem build_core_mutation :
    ∀ (defs : List TypeSystemDefinition) (cfg : GraphQLConfig),
      (build_config_core defs cfg).mutation_type =
        declared_mutation defs cfg.mutation_type := by
  intro defs
  induction defs with
  | nil => intro cfg; rfl
  | cons d rest ih =>
    intro cfg
    cases d with
    | schema sd =>
      simp only [build_config_core, declared_mutation]
      rw [ih]
      cases hq : sd.mutation with
      | some m => simp [process_schema_definition, hq]
      | none => simp [process_schema_definition, hq]
    | typeDef td =>
      simp only [build_config_core, declared_mutation]
      rw [ih]
      cases hp : process_type_definition td with
      | some tc => simp [hp]
      | none => simp [hp]
    | directiveDef =>
      simp only [build_config_core, declared_mutation]
      exact ih cfg

theorem infer_root_types_types (cfg : GraphQLConfig) :
    (infer_root_types cfg).types = cfg.types := by
  simp only [infer_root_types]
  by_cases h1 : (cfg.query_type.isNone && (cfg.lookupType "Query").isSome) =
      true
  · rw [if_pos h1]
    split <;> rfl
  · rw [if_neg h1]
    split <;> rfl

theorem infer_root_types_query (cfg : GraphQLConfig) :
    (infer_root_types cfg).query_type =
      if cfg.query_type.isNone && (cfg.lookupType "Query").isSome then
        some "Query"
      else cfg.query_type := by
  simp only [infer_root_types]
  by_cases h1 : (cfg.query_type.isNone && (cfg.lookupType "Query").isSome) =
      true
  · rw [if_pos h1, if_pos h1]
    split <;> rfl
  · rw [if_neg h1, if_neg h1]
    split <;> rfl

theorem infer_root_types_mutation (cfg : GraphQLConfig) :
    (infer_root_types cfg).mutation_type =
      if cfg.mutation_type.isNone && (cfg.lookupType "Mutation").isSome then
        some "Mutation"
      else cfg.mutation_type := by
  simp only [infer_root_types]
  by_cases h1 : (cfg.query_type.isNone && (cfg.lookupType "Query").isSome) =
      true
  · rw [if_pos h1]
    split
    · next h2 =>
      rw [if_pos (show (cfg.mutation_type.isNone &&
        (cfg.lookupType "Mutation").isSome) = true from h2)]
    · next h2 =>
      rw [if_neg (show ¬(cfg.mutation_type.isNone &&
        (cfg.lookupType "Mutation").isSome) = true from h2)]
  · rw [if_neg h1]
    split
    · rfl
    · rfl

/-- C6: with no explicit schema-block query declaration, a present type named
`Query` is inferred as the query root; an explicit declaration wins even when
a type named `Query` exists.  Likewise for `Mutation`. -/
theorem root_inference (doc : List TypeSystemDefinition) :
    (declared_query doc none = none →
      ((build_config_core doc {}).lookupType "Query").isSome = true →
      (build_config_from_document doc).query_type = some "Query") ∧
    (∀ n, declared_query doc none = some n →
      (build_config_from_document doc).query_type = some n) ∧
    (declared_mutation doc none = none →
      ((build_config_core doc {}).lookupType "Mutation").isSome = true →
      (build_config_from_document doc).mutation_type = some "Mutation") ∧
    (∀ n, declared_mutation doc none = some n →
      (build_config_from_document doc).mutation_type = some n) := by
  have hq : (build_config_core doc {}).query_type = declared_query doc none :=
    build_core_query doc {}
  have hm : (build_config_core doc {}).mutation_type =
      declared_mutation doc none := build_core_mutation doc {}
  refine ⟨?_, ?_, ?_, ?_⟩
  · intro hnone hsome
    unfold build_config_from_document
    rw [infer_root_types_query]
    rw [hq, hnone, hsome]
    rfl
  · intro n hdecl
    unfold build_config_from_document
    rw [infer_root_types_query]
    rw [hq, hdecl]
    rfl
  · intro hnone hsome
    unfold build_config_from_document
    rw [infer_root_types_mutation]
    rw [hm, hnone, hsome]
    rfl
  · intro n hdecl
    unfold build_config_from_document
    rw [infer_root_types_mutation]
    rw [hm, hdecl]
    rfl

/-- Witness for C6: a document with plain `Query` and `Mutation` types and no
schema block infers both roots. -/
theorem root_inference_witness :
    declared_query docInferW none = none ∧
    ((build_config_core docInferW {}).lookupType "Query").isSome = true ∧
    (build_config_from_document docInferW).query_type = some "Query" ∧
    (build_config_from_document docInferW).mutation_type = some "Mutation" :=
  ⟨rfl, rfl,
   (root_inference docInferW).1 rfl rfl,
   (root_inference docInferW).2.2.1 rfl rfl⟩

theorem process_type_definition_name (td : TypeDefinition) (tc : TypeConfig)
    (h : process_type_definition td = some tc) :
    startsWithPat "__" tc.name = false := by
  unfold process_type_definition at h
  by_cases hs : startsWithPat "__" td.name = true
  · rw [if_pos hs] at h
    cases h
  · have hsf : startsWithPat "__" td.name = false := by
      cases hval : startsWithPat "__" td.name
      · rfl
      · exact absurd hval hs
    rw [if_neg hs] at h
    cases hk : td.kind with
    | object fields =>
      simp only [hk] at h
      injection h with h2
      rw [← h2]
      exact hsf
    | interface fields =>
      simp only [hk] at h
      injection h with h2
      rw [← h2]
      exact hsf
    | scalar => simp only [hk] at h; exact Option.noConfusion h
    | enumKind => simp only [hk] at h; exact Option.noConfusion h
    | union => simp only [hk] at h; exact Option.noConfusion h
    | inputObject => simp only [hk] at h; exact Option.noConfusion h

theorem build_core_keys :
    ∀ (defs : List TypeSystemDefinition) (cfg : GraphQLConfig),
      (∀ k ∈ cfg.types.map Prod.fst, startsWithPat "__" k = false) →
      ∀ k ∈ (build_config_core defs cfg).types.map Prod.fst,
        startsWithPat "__" k = false := by
  intro defs
  induction defs with
  | nil => intro cfg h; exact h
  | cons d rest ih =>
    intro cfg h
    cases d with
    | schema sd =>
      simp only [build_config_core]
      exact ih (process_schema_definition sd cfg) (fun k hk => h k hk)
    | typeDef td =>
      simp only [build_config_core]
      apply ih
      intro k hk
      cases hp : process_type_definition td with
      | none =>
        simp only [hp] at hk
        exact h k hk
      | some tc =>
        simp only [hp, alistInsert, List.map_cons, List.mem_cons] at hk
        rcases hk with hk | hk
        · subst hk
          exact process_type_definition_name td tc hp
        · apply h
          obtain ⟨kv, hkv, hkeq⟩ := List.mem_map.mp hk
          exact hkeq ▸ List.mem_map_of_mem _ (List.mem_of_mem_filter hkv)
    | directiveDef =>
      simp only [build_config_core]
      exact ih cfg h

/-- C8: no key of a built configuration's type mapping starts with the
reserved introspection pattern `__` — a type definition so named is never
turned into a `TypeConfig`. -/
theorem no_introspection_type_keys (doc : List TypeSystemDefinition)
    (k : String) (tc : TypeConfig)
    (h : (build_config_from_document doc).lookupType k = some tc) :
    startsWithPat "__" k = false := by
  unfold GraphQLConfig.lookupType at h
  rw [show (build_config_from_document doc).types =
      (build_config_core doc {}).types from infer_root_types_types _] at h
  have hmem := alistLookup_some_mem _ _ _ h
  exact build_core_keys doc {} (fun k2 hk2 => by cases hk2) k hmem

/-- Witness for C8 on a document declaring both `Query` and `__Internal`:
the surviving key is the non-introspection one. -/
theorem no_introspection_type_keys_witness :
    (build_config_from_document docIntroW).lookupType "Query" =
      some ⟨"Query", [⟨"hello", .Named "String", [], none⟩]⟩ ∧
    startsWithPat "__" "Query" = false ∧
    (build_config_from_document docIntroW).lookupType "__Internal" = none :=
  ⟨rfl,
   no_introspection_type_keys docIntroW "Query"
     ⟨"Query", [⟨"hello", .Named "String", [], none⟩]⟩ rfl,
   rfl⟩

theorem find_directive_cons (d : ConstDirective) (rest : List ConstDirective)
    (t : String) :
    find_directive (d :: rest) t =
      if (d.name == t) = true then some d else find_directive rest t := by
  by_cases h : (d.name == t) = true
  · rw [if_pos h]
    exact List.find?_cons_of_pos _ h
  · rw [if_neg h]
    exact List.find?_cons_of_neg _ h

theorem renameTraitDirectives_cons (d : ConstDirective)
    (rest : List ConstDirective) :
    renameTraitDirectives (d :: rest) =
      (if (d.name == "trait") = true then { d with name := "resolver" }
       else d) :: renameTraitDirectives rest := rfl

theorem find_directive_rename_other :
    ∀ (ds : List ConstDirective) (t : String),
      t ≠ "trait" → t ≠ "resolver" →
      find_directive (renameTraitDirectives ds) t = find_directive ds t := by
  intro ds
  induction ds with
  | nil => intro t _ _; rfl
  | cons d rest ih =>
    intro t ht hr
    rw [renameTraitDirectives_cons, find_directive_cons, find_directive_cons]
    by_cases hd : (d.name == "trait") = true
    · rw [if_pos hd]
      have hdt : d.name = "trait" := by simpa using hd
      have c1 : ¬((({ d with name := "resolver" } :
          ConstDirective).name == t) = true) := by
        show ¬((("resolver" : String) == t) = true)
        rw [beq_eq_false_iff_ne.mpr (fun he => hr he.symm)]
        exact Bool.false_ne_true
      have c2 : ¬((d.name == t) = true) := by
        rw [hdt, beq_eq_false_iff_ne.mpr (fun he => ht he.symm)]
        exact Bool.false_ne_true
      rw [if_neg c1, if_neg c2]
      exact ih t ht hr
    · rw [if_neg hd]
      by_cases he : (d.name == t) = true
      · rw [if_pos he, if_pos he]
      · rw [if_neg he, if_neg he]
        exact ih t ht hr

theorem find_directive_rename_resolver :
    ∀ (ds : List ConstDirective) (td : ConstDirective),
      find_directive ds "resolver" = none →
      find_directive ds "trait" = some td →
      find_directive (renameTraitDirectives ds) "resolver" =
        some { td with name := "resolver" } := by
  intro ds
  induction ds with
  | nil => intro td _ h; cases h
  | cons d rest ih =>
    intro td hres htr
    rw [find_directive_cons] at hres htr
    rw [renameTraitDirectives_cons, find_directive_cons]
    by_cases hd : (d.name == "trait") = true
    · rw [if_pos hd] at htr
      injection htr with htd
      subst htd
      rw [if_pos hd]
      rw [if_pos (show ((({ d with name := "resolver" } :
        ConstDirective).name == "resolver") = true) from rfl)]
    · rw [if_neg hd] at htr
      by_cases hdr : (d.name == "resolver") = true
      · rw [if_pos hdr] at hres
        cases hres
      · rw [if_neg hdr] at hres
        rw [if_neg hd, if_neg hdr]
        exact ih td hres htr

/-- C4: the legacy alias — a field whose directives carry `trait(name: n)`
and no `call` or `resolver` directive extracts to `ResolverConfig.Trait`
bound to `n` (reading the sibling `batchKey`), exactly as the same
directives with `resolver(name: n)` would under `extract_resolver`. -/
theorem legacy_trait_alias (ds : List ConstDirective) (td : ConstDirective)
    (n : String)
    (hcall : find_directive ds "call" = none)
    (hres : find_directive ds "resolver" = none)
    (htrait : find_directive ds "trait" = some td)
    (hname : get_string_argument td "name" = some n) :
    legacy_extract_resolver ds =
      some (.Trait n (((find_directive ds "batchKey").bind
        parse_batch_key_directive).map (fun b => b.field))) ∧
    legacy_extract_resolver ds =
      extract_resolver (renameTraitDirectives ds) := by
  have htdname : (td.name == "trait") = true := by
    have h2 : List.find? (fun d => d.name == "trait") ds = some td := htrait
    have h3 := List.find?_some h2
    exact h3
  have hpt : parse_trait_directive td = some ⟨n⟩ := by
    unfold parse_trait_directive
    rw [if_pos htdname, hname]
    rfl
  have hleft : legacy_extract_resolver ds =
      some (.Trait n (((find_directive ds "batchKey").bind
        parse_batch_key_directive).map (fun b => b.field))) := by
    unfold legacy_extract_resolver
    rw [hcall, htrait]
    simp [hpt]
  refine ⟨hleft, ?_⟩
  rw [hleft]
  have hc2 : find_directive (renameTraitDirectives ds) "call" = none := by
    rw [find_directive_rename_other ds "call" (by decide) (by decide)]
    exact hcall
  have hr2 : find_directive (renameTraitDirectives ds) "resolver" =
      some { td with name := "resolver" } :=
    find_directive_rename_resolver ds td hres htrait
  have hb2 : find_directive (renameTraitDirectives ds) "batchKey" =
      find_directive ds "batchKey" :=
    find_directive_rename_other ds "batchKey" (by decide) (by decide)
  have hprd : parse_resolver_directive { td with name := "resolver" } =
      some ⟨n⟩ := by
    unfold parse_resolver_directive
    rw [if_pos (show ((({ td with name := "resolver" } :
      ConstDirective).name == "resolver") = true) from rfl)]
    rw [show get_string_argument { td with name := "resolver" } "name" =
      get_string_argument td "name" from rfl, hname]
    rfl
  unfold extract_resolver
  rw [hc2, hr2, hb2]
  simp [hprd]

/-- Witness for C4 at `trait(name: "getPosts")` with a sibling
`batchKey(field: "userId")`: the legacy extraction yields the batched
`Trait` binding and agrees with `extract_resolver` after renaming the
directive to `resolver`. -/
theorem legacy_trait_alias_witness :
    find_directive dsTraitW "call" = none ∧
    find_directive dsTraitW "resolver" = none ∧
    legacy_extract_resolver dsTraitW =
      some (.Trait "getPosts" (some "userId")) ∧
    legacy_extract_resolver dsTraitW =
      extract_resolver (renameTraitDirectives dsTraitW) :=
  ⟨rfl, rfl,
   (legacy_trait_alias dsTraitW ⟨"trait", [("name", .string "getPosts")]⟩
     "getPosts" rfl rfl rfl rfl).1.trans rfl,
   (legacy_trait_alias dsTraitW ⟨"trait", [("name", .string "getPosts")]⟩
     "getPosts" rfl rfl rfl rfl).2⟩

end GraphQLTraitResolver
